import Mathlib

/-!
Shallow embedding of the clime draft CLI engine (`src/draft/cli/index.ts`):
the command resolver (`CLI.parse`), the token classifier/binder and the
dispatcher (`CLI.load`), together with the JavaScript value/number coercion
they rely on (`castArgument`, the ECMAScript string-to-number conversion).

Conventions of the embedding:
* A filesystem path is a `List String` of segments relative to the resolver
  root; the filesystem itself is the list of existing paths, so
  `FS.existsSync p` becomes list membership.
* JavaScript numbers are modelled as `JSNumber` (NaN, signed infinity, or a
  finite binary64 double held as its exact rational value); `Number(string)`
  is modelled by `jsToNumber`, which follows the ECMAScript StringToNumber
  grammar (StrWhiteSpace trimming, empty string to zero, signed decimal
  literals with fraction and exponent, `Infinity`, and unsigned
  hex/octal/binary literals) and rounds the literal's exact value to the
  nearest double, ties to even, with overflow to infinity and gradual
  underflow to zero.
* Thrown `Error`s become the `CLIError` inductive; the JavaScript `TypeError`
  raised by accessing a property of `undefined` (when a command declares no
  options but a long option token arrives) is `CLIError.typeError`.
* The mutable closure state of `load` becomes the explicit `BindState`
  threaded through the consume functions.
-/

namespace Clime

/-- An exact fraction in lowest terms with positive denominator; every value
is built through `normFrac`, so derived equality coincides with equality of
the represented rationals. -/
structure Frac where
  num : Int
  den : Nat
deriving DecidableEq, Repr

/-- Normalise `n / d` (with `d ≠ 0` at every use site) to lowest terms. -/
def normFrac (n : Int) (d : Nat) : Frac :=
  let g := Int.gcd n (d : Int)
  if g = 0 then ⟨0, 1⟩ else ⟨n / (g : Int), d / g⟩

/-- The result classes of a JavaScript numeric value: NaN, an infinity, or a
finite binary64 double. Every finite double is an exact rational, and the
parser rounds each literal to its double (`roundToDouble`), so the `Frac`
payload is always exactly the double the program computes. -/
inductive JSNumber where
  | nan : JSNumber
  | inf (pos : Bool) : JSNumber
  | finite (f : Frac) : JSNumber
deriving DecidableEq, Repr

/-- A JavaScript runtime value as the CLI engine produces them: strings pass
through, numeric coercion yields a `JSNumber`, boolean coercion a `Bool`, and
untyped definitions coerce to `undefined`. -/
inductive JSValue where
  | str (s : String) : JSValue
  | num (n : JSNumber) : JSValue
  | bool (b : Bool) : JSValue
  | undefined : JSValue
deriving DecidableEq, Repr

/-- The declared type of a parameter or option: the TypeScript code stores the
`String`, `Number` or `Boolean` constructor, anything else hitting the
`default` branch of `castArgument`. -/
inductive JSType where
  | string : JSType
  | number : JSType
  | boolean : JSType
  | untyped : JSType
deriving DecidableEq, Repr

/-- The ECMAScript StrWhiteSpace characters trimmed by StringToNumber:
WhiteSpace (TAB, VT, FF, SP, NBSP, ZWNBSP and the Unicode Zs class) and
LineTerminator (LF, CR, LS, PS). -/
def isJSWhitespace (c : Char) : Bool :=
  c = ' ' || c = '\t' || c = '\n' || c = '\r' || c = '\x0b' || c = '\x0c' ||
  c.toNat = 0xA0 || c.toNat = 0x1680 ||
  (0x2000 ≤ c.toNat && c.toNat ≤ 0x200A) ||
  c.toNat = 0x2028 || c.toNat = 0x2029 || c.toNat = 0x202F ||
  c.toNat = 0x205F || c.toNat = 0x3000 || c.toNat = 0xFEFF

/-- Numeric value of a list of decimal digits, most significant first. -/
def digitsVal (ds : List Char) : Nat :=
  ds.foldl (fun a c => a * 10 + (c.toNat - '0'.toNat)) 0

/-- Hexadecimal digit test. -/
def isHexDigit (c : Char) : Bool :=
  c.isDigit || ('a' ≤ c && c ≤ 'f') || ('A' ≤ c && c ≤ 'F')

/-- Value of one hexadecimal digit. -/
def hexDigitVal (c : Char) : Nat :=
  if c.isDigit then c.toNat - '0'.toNat
  else if 'a' ≤ c && c ≤ 'f' then c.toNat - 'a'.toNat + 10
  else c.toNat - 'A'.toNat + 10

/-- Numeric value of a list of hexadecimal digits, most significant first. -/
def hexVal (ds : List Char) : Nat :=
  ds.foldl (fun a c => a * 16 + hexDigitVal c) 0

/-- Numeric value of a list of octal digits, most significant first. -/
def octVal (ds : List Char) : Nat :=
  ds.foldl (fun a c => a * 8 + (c.toNat - '0'.toNat)) 0

/-- Numeric value of a list of binary digits, most significant first. -/
def binVal (ds : List Char) : Nat :=
  ds.foldl (fun a c => a * 2 + (c.toNat - '0'.toNat)) 0

/-- Exponentiation by squaring, fuel-driven (`natPow` passes the exponent as
fuel, which always suffices); equal to `b ^ k` (`natPow_eq_pow`) but keeps
reduction depth logarithmic so large powers of two and ten evaluate. -/
def powAux (b : Nat) : Nat → Nat → Nat
  | 0, _ => 1
  | _ + 1, 0 => 1
  | fuel + 1, k =>
    let h := powAux b fuel (k / 2)
    if k % 2 = 0 then h * h else b * (h * h)

/-- `b ^ k` by squaring. -/
def natPow (b k : Nat) : Nat :=
  powAux b k k

/-- Number of binary digits of the second argument (`0` for `0`), driven by a
fuel that bounds the number of halvings (`bitlen` passes the number itself,
which always suffices). -/
def bitlenAux : Nat → Nat → Nat
  | 0, _ => 0
  | fuel + 1, n => if n = 0 then 0 else bitlenAux fuel (n / 2) + 1

/-- Number of binary digits of `n`: `2 ^ (bitlen n - 1) ≤ n < 2 ^ bitlen n`
for positive `n`. -/
def bitlen (n : Nat) : Nat :=
  bitlenAux n n

/-- Floor of the base-two logarithm of the positive rational `a / d`: the
bit-length difference is off by at most one, fixed up by a single
comparison. -/
def floorLog2 (a d : Nat) : Int :=
  let e0 : Int := (bitlen a : Int) - (bitlen d : Int)
  if 0 ≤ e0 then
    if d * natPow 2 e0.toNat ≤ a then e0 else e0 - 1
  else
    if d ≤ a * natPow 2 (-e0).toNat then e0 else e0 - 1

/-- Round the fraction `n / d` (`d ≠ 0`) to the nearest integer, ties to
even. -/
def roundHalfEven (n d : Nat) : Nat :=
  let q := n / d
  let r := n % d
  if 2 * r < d then q
  else if 2 * r > d then q + 1
  else if q % 2 = 0 then q else q + 1

/-- Round the exact rational `n / d` (`d ≠ 0`) to the nearest IEEE 754
binary64 value (round to nearest, ties to even), as ECMAScript's
StringToNumber does with the mathematical value of a numeric literal:
magnitudes at least `2 ^ 1024` after rounding overflow to the signed
infinity, subnormals are quantised at `2 ^ (-1074)`, and values below half
the smallest subnormal underflow to zero. Every finite double is an exact
rational, returned in lowest terms. -/
def roundToDouble (n : Int) (d : Nat) : JSNumber :=
  let a := n.natAbs
  let pos : Bool := decide (0 ≤ n)
  if a = 0 then .finite ⟨0, 1⟩
  else
    let e : Int := floorLog2 a d
    if 1024 ≤ e then .inf pos
    else
      let p : Int := max (e - 52) (-1074)
      let num := if 0 ≤ p then a else a * natPow 2 (-p).toNat
      let den := if 0 ≤ p then d * natPow 2 p.toNat else d
      let m := roundHalfEven num den
      if natPow 2 ((1024 : Int) - p).toNat ≤ m then .inf pos
      else if m = 0 then .finite ⟨0, 1⟩
      else if 0 ≤ p then
        .finite (normFrac (if pos then (m * natPow 2 p.toNat : Int) else -(m * natPow 2 p.toNat : Int)) 1)
      else
        .finite (normFrac (if pos then (m : Int) else -(m : Int)) (natPow 2 (-p).toNat))

/-- Scale an unsigned fraction (numerator, denominator) by a signed power of
ten (the exponent part of a decimal literal). -/
def applyExp (nd : Nat × Nat) (e : Int) : Nat × Nat :=
  if 0 ≤ e then (nd.1 * natPow 10 e.toNat, nd.2) else (nd.1, nd.2 * natPow 10 (-e).toNat)

/-- Parse the optional exponent part of a decimal literal; the input must be
consumed entirely. `[]` means no exponent (scale 0). -/
def parseExponent : List Char → Option Int
  | [] => some 0
  | e :: rest =>
    if e = 'e' || e = 'E' then
      let signed : Int × List Char :=
        match rest with
        | '+' :: r => (1, r)
        | '-' :: r => (-1, r)
        | r => (1, r)
      let ds := signed.2.takeWhile Char.isDigit
      let r3 := signed.2.dropWhile Char.isDigit
      if !ds.isEmpty && r3.isEmpty then some (signed.1 * (digitsVal ds : Int))
      else none
    else none

/-- Parse an unsigned decimal literal `digits [. digits] [exponent]` (at least
one digit in the integer or fraction part), consuming the whole input; the
value is returned as an unnormalised (numerator, denominator) pair. -/
def parseUnsignedDecimal (cs : List Char) : Option (Nat × Nat) :=
  let ip := cs.takeWhile Char.isDigit
  let r1 := cs.dropWhile Char.isDigit
  let frac : List Char × List Char :=
    match r1 with
    | '.' :: r => (r.takeWhile Char.isDigit, r.dropWhile Char.isDigit)
    | _ => ([], r1)
  if ip.isEmpty && frac.1.isEmpty then none
  else
    match parseExponent frac.2 with
    | none => none
    | some e =>
      some (applyExp
        (digitsVal ip * natPow 10 frac.1.length + digitsVal frac.1, natPow 10 frac.1.length) e)

/-- ECMAScript `Number(string)` conversion (`jsToNumber s` models
`Number(s)`): trim StrWhiteSpace, empty means zero, then an optionally
signed decimal literal or `Infinity`, or an unsigned `0x`/`0o`/`0b` radix
literal; anything else is NaN. The literal's exact value is rounded to its
binary64 double by `roundToDouble`. -/
def jsToNumber (s : String) : JSNumber :=
  let cs := ((s.data.dropWhile isJSWhitespace).reverse.dropWhile isJSWhitespace).reverse
  match cs with
  | [] => .finite ⟨0, 1⟩
  | '0' :: x :: rest =>
    if x = 'x' || x = 'X' then
      if !rest.isEmpty && rest.all isHexDigit then roundToDouble (hexVal rest) 1 else .nan
    else if x = 'o' || x = 'O' then
      if !rest.isEmpty && rest.all (fun c => '0' ≤ c && c ≤ '7') then
        roundToDouble (octVal rest) 1
      else .nan
    else if x = 'b' || x = 'B' then
      if !rest.isEmpty && rest.all (fun c => c = '0' || c = '1') then
        roundToDouble (binVal rest) 1
      else .nan
    else
      match parseUnsignedDecimal cs with
      | some nd => roundToDouble nd.1 nd.2
      | none => .nan
  | _ =>
    let signedBody : Bool × List Char :=
      match cs with
      | '+' :: r => (true, r)
      | '-' :: r => (false, r)
      | r => (true, r)
    if signedBody.2 = "Infinity".data then .inf signedBody.1
    else
      match parseUnsignedDecimal signedBody.2 with
      | some nd => roundToDouble (if signedBody.1 then (nd.1 : Int) else -(nd.1 : Int)) nd.2
      | none => .nan

/-- JavaScript `Boolean(n)` for a number `n`: false exactly for `0`, `-0` and
`NaN`. -/
def jsBoolOfNumber : JSNumber → Bool
  | .nan => false
  | .inf _ => true
  | .finite f => !(f.num = 0 : Bool)

/-- ASCII lowercasing of one character (`String.prototype.toLowerCase` on the
ASCII range the CLI deals in). -/
def asciiLower (c : Char) : Char :=
  if 'A' ≤ c && c ≤ 'Z' then Char.ofNat (c.toNat + 32) else c

/-- `arg.toLowerCase()` over ASCII. -/
def lowercase (s : String) : String :=
  String.mk (s.data.map asciiLower)

/-- The `castArgument` closure of `CLI.load`: coerce a raw token to the
declared type (`String` passes through, `Number` is `Number(arg)`, `Boolean`
is false for a case-insensitive `"false"` and otherwise the boolean cast of
the numeric parse with NaN mapping to true, and any other type yields
`undefined`). -/
def castArgument (arg : String) : JSType → JSValue
  | .string => .str arg
  | .number => .num (jsToNumber arg)
  | .boolean =>
    if lowercase arg = "false" then .bool false
    else
      match jsToNumber arg with
      | .nan => .bool true
      | n => .bool (jsBoolOfNumber n)
  | .untyped => .undefined

/-- A character of the `\w`/`\d` classes of the command-name regex:
ASCII letters, digits and underscore. -/
def isWordChar (c : Char) : Bool :=
  c.isAlpha || c.isDigit || c = '_'

/-- Scanner for the command-name grammar: `seen` records whether the current
hyphen-separated segment already holds at least one word character. A hyphen
closes a segment (legal only when nonempty) and opens a fresh one; the end of
input is legal only with a nonempty final segment. -/
def validCommandNameAux : Bool → List Char → Bool
  | seen, [] => seen
  | seen, c :: cs =>
    if isWordChar c then validCommandNameAux true cs
    else if c = '-' then seen && validCommandNameAux false cs
    else false

/-- The command-name grammar `^[\w\d]+(?:-[\w\d]+)*$`: one or more nonempty
word-character segments separated by single hyphens. -/
def validCommandName (s : String) : Bool :=
  validCommandNameAux false s.data

/-- Membership test of a path in the modelled filesystem (`FS.existsSync`). -/
def pathExists (fs : List (List String)) (p : List String) : Bool :=
  fs.contains p

/-- The loop state of `CLI.parse`: the current search directory, the module
chosen so far (`filename`), the command sequence recorded so far, and the argv
tail from the last recorded `argsIndex` (the tokens that will become the
command's arguments if resolution records nothing further). -/
structure ParseAcc where
  searchPath : List String
  filename : List String
  cmdSeq : List String
  args : List String
deriving DecidableEq, Repr

/-- The labelled `outer` loop of `CLI.parse` over the remaining argv tokens.
For a token matching the command-name grammar the two candidate module paths
are probed leaf first (`searchPath/token.js`), then the subdirectory default
(`searchPath/token/default.js`); the first existing candidate is recorded and
the walk descends. With no candidate, a missing subdirectory breaks the loop,
while an existing subdirectory lets the loop continue into it without
recording anything. A token failing the grammar breaks the loop. -/
def resolveLoop (fs : List (List String)) (acc : ParseAcc) : List String → ParseAcc
  | [] => acc
  | tok :: rest =>
    if validCommandName tok then
      let sp := acc.searchPath ++ [tok]
      let leaf := acc.searchPath ++ [tok ++ ".js"]
      let dflt := acc.searchPath ++ [tok, "default.js"]
      if pathExists fs leaf then
        resolveLoop fs ⟨sp, leaf, acc.cmdSeq ++ [tok], rest⟩ rest
      else if pathExists fs dflt then
        resolveLoop fs ⟨sp, dflt, acc.cmdSeq ++ [tok], rest⟩ rest
      else if pathExists fs sp then
        resolveLoop fs { acc with searchPath := sp } rest
      else acc
    else acc

/-- `CLI.parse`: resolve argv (whose first two entries are the node binary and
the script) against the filesystem-encoded command tree, starting from the
root default module with the entry name as the initial command sequence. -/
def parse (fs : List (List String)) (entry : String) (argv : List String) : ParseAcc :=
  resolveLoop fs ⟨[], ["default.js"], [entry], argv.drop 2⟩ (argv.drop 2)

/-- A positional-parameter definition consumed from the command metadata. -/
structure ParamDefinition where
  name : String
  type : JSType
  default : JSValue
deriving DecidableEq, Repr

/-- An option definition consumed from the command metadata (`flag` is the
optional single-character shorthand; `toggle` options take no value). -/
structure OptionDefinition where
  name : String
  flag : Option Char
  required : Bool
  toggle : Bool
  default : JSValue
  type : JSType
deriving DecidableEq, Repr

/-- The shape of a resolved command as `CLI.load` consumes it:
`optionDefinitions` is `none` when the command declares no options at all
(the TypeScript value is `undefined`, and the option tables are never
built). -/
structure CommandDefinition where
  optionDefinitions : Option (List OptionDefinition)
  paramDefinitions : List ParamDefinition
  requiredParamsNumber : Nat
deriving DecidableEq, Repr

/-- The errors thrown by `CLI.load` and its consume closures, plus the
JavaScript `TypeError` that a long option token provokes when the command
declares no options (property access on `undefined`). -/
inductive CLIError where
  | unknownOptionFlag (flag : Char) : CLIError
  | unknownOptionName (name : String) : CLIError
  | missingOptionValue (name : String) : CLIError
  | optionValueLooksLikeOption (name : String) (arg : String) : CLIError
  | nonTerminalFlagTakesValue : CLIError
  | insufficientPositionalArguments (expecting got : Nat) : CLIError
  | missingRequiredOptions (names : List String) : CLIError
  | typeError : CLIError
deriving DecidableEq, Repr

/-- Last entry of a list satisfying a predicate: a JavaScript object built by
assigning `map[key] = v` in a loop keeps the last assignment for a key, so
lookups resolve to the last matching definition. -/
def lookupLast {α : Type} (p : α → Bool) : List α → Option α
  | [] => none
  | x :: xs =>
    match lookupLast p xs with
    | some y => some y
    | none => if p x then some x else none

/-- `optionDefinitionMap[name]` (none when the command declares no options:
the map itself is `undefined`). -/
def optionDefinitionMap (defs? : Option (List OptionDefinition)) (name : String) :
    Option OptionDefinition :=
  match defs? with
  | none => none
  | some defs => lookupLast (fun d => d.name = name) defs

/-- `flagToNameMapping[flag]` (none when the command declares no options or no
definition carries the flag). -/
def flagToName (defs? : Option (List OptionDefinition)) (c : Char) : Option String :=
  match defs? with
  | none => none
  | some defs => (lookupLast (fun d => d.flag = some c) defs).map (·.name)

/-- Set a key of an insertion-ordered association list, JavaScript-object
style: overwrite in place when present, append when absent. -/
def assocSet (l : List (String × JSValue)) (k : String) (v : JSValue) :
    List (String × JSValue) :=
  match l with
  | [] => [(k, v)]
  | (k', v') :: rest => if k' = k then (k, v) :: rest else (k', v') :: assocSet rest k v

/-- Lookup in the options record (`commandOptions[name]`). -/
def assocGet : List (String × JSValue) → String → Option JSValue
  | [], _ => none
  | (k', v') :: rest, k => if k' = k then some v' else assocGet rest k

/-- Add a key to an insertion-ordered key set (`requiredOptionMap[name] =
true`): appending when absent, keeping the order otherwise. -/
def insertName (l : List String) (n : String) : List String :=
  if n ∈ l then l else l ++ [n]

/-- Remove a key from the key set (`delete requiredOptionMap[name]`). -/
def removeName (l : List String) (n : String) : List String :=
  l.filter (· ≠ n)

/-- The mutable closure state of `CLI.load` while consuming the argv tail:
bound positionals, overflow positionals, the options record, the
pending-required key set and the pending parameter queue. -/
structure BindState where
  commandArgs : List JSValue
  commandExtraArgs : List String
  commandOptions : List (String × JSValue)
  requiredPending : List String
  pendingParams : List ParamDefinition
deriving DecidableEq, Repr

/-- Overwrite an option's current value (`commandOptions[name] = v`). -/
def setOpt (st : BindState) (name : String) (v : JSValue) : BindState :=
  { st with commandOptions := assocSet st.commandOptions name v }

/-- Drop an option from the pending-required set
(`delete requiredOptionMap[name]`). -/
def dropRequired (st : BindState) (name : String) : BindState :=
  { st with requiredPending := removeName st.requiredPending name }

/-- The `consumeOption` closure: shift the next token as the option's value,
failing when the queue is empty or the token starts with `-`, and otherwise
storing the value coerced to the option's declared type. The caller accounts
for the shifted token. -/
def consumeOption (st : BindState) (name : String) (d : OptionDefinition)
    (rest : List String) : Except CLIError BindState :=
  match rest with
  | [] => .error (.missingOptionValue name)
  | v :: _ =>
    if v.data.head? = some '-' then .error (.optionValueLooksLikeOption name v)
    else .ok (setOpt st name (castArgument v d.type))

/-- The `consumeToggleOrOption` closure for a `--name` token: unknown names
are fatal (a `TypeError` when the option map itself is `undefined`), a
required option is dropped from the pending set, a toggle becomes true, and a
value option consumes the next token via `consumeOption`. The returned flag
records whether a value token was consumed from `rest`. -/
def consumeToggleOrOption (defs? : Option (List OptionDefinition)) (st : BindState)
    (name : String) (rest : List String) : Except CLIError (BindState × Bool) :=
  match defs? with
  | none => .error .typeError
  | some _ =>
    match optionDefinitionMap defs? name with
    | none => .error (.unknownOptionName name)
    | some d =>
      let st1 := if d.required then dropRequired st name else st
      if d.toggle then .ok (setOpt st1 name (.bool true), false)
      else (consumeOption st1 name d rest).map (fun st2 => (st2, true))

/-- The `consumeFlags` closure for a `-c₁…cₙ` token: each character resolves
through the flag table (unknown characters, or any character when no options
are declared, are fatal), required bookkeeping mirrors the long-name path,
toggles become true, and a value option is legal only as the last character,
where it consumes the next token via `consumeOption`. -/
def consumeFlags (defs? : Option (List OptionDefinition)) (st : BindState)
    (flags : List Char) (rest : List String) : Except CLIError (BindState × Bool) :=
  match flags with
  | [] => .ok (st, false)
  | c :: cs =>
    match flagToName defs? c with
    | none => .error (.unknownOptionFlag c)
    | some name =>
      match optionDefinitionMap defs? name with
      | none => .error .typeError
      | some d =>
        let st1 := if d.required then dropRequired st name else st
        if d.toggle then consumeFlags defs? (setOpt st1 name (.bool true)) cs rest
        else if cs.isEmpty then
          (consumeOption st1 name d rest).map (fun st2 => (st2, true))
        else .error .nonTerminalFlagTakesValue

/-- The `consumeArgument` closure: a positional token fills the next pending
parameter slot (coerced to its declared type) or, with the queue empty, is
appended verbatim to the overflow list. -/
def consumeArgument (st : BindState) (arg : String) : BindState :=
  match st.pendingParams with
  | [] => { st with commandExtraArgs := st.commandExtraArgs ++ [arg] }
  | d :: ds =>
    { st with
      pendingParams := ds
      commandArgs := st.commandArgs ++ [castArgument arg d.type] }

/-- Result of the token-consumption loop of `CLI.load`: a help short-circuit,
a thrown error, or the final binder state once the queue is exhausted. -/
inductive LoopResult where
  | help : LoopResult
  | error (e : CLIError) : LoopResult
  | done (st : BindState) : LoopResult
deriving DecidableEq, Repr

/-- The help regex `^(?:-[h?]|--help)$`. -/
def isHelpToken (s : String) : Bool :=
  s = "-h" || s = "-?" || s = "--help"

/-- The `while (args.length)` loop of `CLI.load`: shift a token, short-circuit
on help, dispatch on the leading hyphens to the long-name, flag-cluster or
positional consumer, dropping an extra token whenever a consumer reports
having consumed the following value. A consumer reporting a consumed value
has shifted the head of `rest` (so the `[]` branches under `.ok (st', true)`
are unreachable; `consumeOption` fails on an empty queue). -/
def loadLoop (defs? : Option (List OptionDefinition)) : BindState → List String → LoopResult
  | st, [] => .done st
  | st, arg :: rest =>
    if isHelpToken arg then .help
    else
      match arg.data with
      | '-' :: '-' :: nameChars =>
        match consumeToggleOrOption defs? st (String.mk nameChars) rest with
        | .error e => .error e
        | .ok (st', false) => loadLoop defs? st' rest
        | .ok (st', true) =>
          match rest with
          | [] => .done st'
          | _ :: t => loadLoop defs? st' t
      | '-' :: flagChars =>
        match consumeFlags defs? st flagChars rest with
        | .error e => .error e
        | .ok (st', false) => loadLoop defs? st' rest
        | .ok (st', true) =>
          match rest with
          | [] => .done st'
          | _ :: t => loadLoop defs? st' t
      | _ => loadLoop defs? (consumeArgument st arg) rest

/-- The initial binder state: options seeded to `false` for toggles and the
declared default otherwise, the required names collected in declaration
order, and the parameter queue a copy of the declared parameters. -/
def initState (cmd : CommandDefinition) : BindState :=
  { commandArgs := []
    commandExtraArgs := []
    commandOptions :=
      match cmd.optionDefinitions with
      | none => []
      | some defs =>
        defs.foldl
          (fun acc d => assocSet acc d.name (if d.toggle then .bool false else d.default)) []
    requiredPending :=
      match cmd.optionDefinitions with
      | none => []
      | some defs => defs.foldl (fun acc d => if d.required then insertName acc d.name else acc) []
    pendingParams := cmd.paramDefinitions }

/-- The invocation context handed to `execute`. -/
structure Context where
  cwd : String
  args : List String
  commands : List String
deriving DecidableEq, Repr

/-- Observable shape of the final `command.execute(...commandArgs,
...executeMethodArgs)` call: the positional values in order, the options
record (absent exactly when the command declares no options, since only then
is it never pushed onto `executeMethodArgs`), and the context. -/
structure ExecuteCall where
  commandArgs : List JSValue
  options : Option (List (String × JSValue))
  context : Context
deriving DecidableEq, Repr

/-- Terminal outcome of `CLI.load`. -/
inductive LoadOutcome where
  | help (commands : List String) : LoadOutcome
  | error (e : CLIError) : LoadOutcome
  | executed (call : ExecuteCall) : LoadOutcome
deriving DecidableEq, Repr

/-- `CLI.load` after module instantiation: run the consumption loop, then
validate the positional count and the pending-required set, append the
pending parameters' defaults, and assemble the `execute` call. -/
def load (cmd : CommandDefinition) (cmdSeq : List String) (args : List String)
    (cwd : String) : LoadOutcome :=
  match loadLoop cmd.optionDefinitions (initState cmd) args with
  | .help => .help cmdSeq
  | .error e => .error e
  | .done st =>
    if st.commandArgs.length < cmd.requiredParamsNumber then
      .error (.insufficientPositionalArguments cmd.requiredParamsNumber st.commandArgs.length)
    else if cmd.optionDefinitions.isSome && !st.requiredPending.isEmpty then
      .error (.missingRequiredOptions st.requiredPending)
    else
      .executed
        { commandArgs := st.commandArgs ++ st.pendingParams.map (·.default)
          options :=
            match cmd.optionDefinitions with
            | none => none
            | some _ => some st.commandOptions
          context := { cwd := cwd, args := st.commandExtraArgs, commands := cmdSeq } }

/-- Whether a token can reference the option `name` at all: a `--name` token
with exactly that name, or a flag cluster one of whose characters maps to the
name. Value tokens consumed by `consumeOption` never reach the option paths,
so a token outside this predicate can never satisfy (nor remove from the
pending-required set) the option `name`. -/
def mentionsOption (defs? : Option (List OptionDefinition)) (name : String)
    (tok : String) : Bool :=
  match tok.data with
  | '-' :: '-' :: nameChars => decide (String.mk nameChars = name)
  | '-' :: flagChars => flagChars.any (fun c => decide (flagToName defs? c = some name))
  | _ => false

/-! Theorems settling the claims. -/

set_option maxRecDepth 8192 in
/-- C6: Boolean coercion: a token case-insensitively equal to `"false"`
yields `false`; otherwise a token parsing as a number yields that number's
boolean cast (nonzero to true, zero to false, infinities being nonzero), and
a token not parsing as a number yields `true`; in particular `"false"` in any
case and `"0"` give `false`, while `"2"` and `"yes"` give `true`. The
binary64 edge cases follow the rounding of `Number()`: `"1e-400"` underflows
to zero (`false`), a zero token prefixed by a no-break space is trimmed to
zero (`false`), `"5e-324"` is the smallest subnormal (nonzero, `true`), and
`"2e308"` overflows to infinity (`true`). -/
theorem C6_boolean_coercion :
    (∀ s : String, lowercase s = "false" → castArgument s .boolean = .bool false) ∧
    (∀ s : String, lowercase s ≠ "false" → jsToNumber s = .nan →
      castArgument s .boolean = .bool true) ∧
    (∀ (s : String) (f : Frac), lowercase s ≠ "false" → jsToNumber s = .finite f →
      castArgument s .boolean = .bool (!(f.num = 0 : Bool))) ∧
    (∀ (s : String) (b : Bool), lowercase s ≠ "false" → jsToNumber s = .inf b →
      castArgument s .boolean = .bool true) ∧
    castArgument "false" .boolean = .bool false ∧
    castArgument "FALSE" .boolean = .bool false ∧
    castArgument "faLsE" .boolean = .bool false ∧
    castArgument "0" .boolean = .bool false ∧
    castArgument "2" .boolean = .bool true ∧
    castArgument "yes" .boolean = .bool true ∧
    castArgument "1e-400" .boolean = .bool false ∧
    castArgument "\u00A00" .boolean = .bool false ∧
    castArgument "5e-324" .boolean = .bool true ∧
    castArgument "2e308" .boolean = .bool true := by
  refine ⟨?_, ?_, ?_, ?_, by decide, by decide, by decide, by decide, by decide, by decide,
    by decide, by decide, by decide, by decide⟩
  · intro s h
    simp [castArgument, h]
  · intro s h hn
    simp [castArgument, h, hn]
  · intro s f h hn
    simp [castArgument, h, hn, jsBoolOfNumber]
  · intro s b h hn
    simp [castArgument, h, hn, jsBoolOfNumber]

/-- With enough fuel, exponentiation by squaring is exponentiation. -/
theorem powAux_eq_pow (b : Nat) : ∀ (fuel k : Nat), k ≤ fuel → powAux b fuel k = b ^ k
  | 0, 0, _ => rfl
  | _ + 1, 0, _ => rfl
  | fuel + 1, k + 1, _ => by
    have hk2 : (k + 1) / 2 ≤ fuel := by omega
    have ih := powAux_eq_pow b fuel ((k + 1) / 2) hk2
    simp only [powAux, ih]
    by_cases hpar : (k + 1) % 2 = 0
    · rw [if_pos hpar, ← pow_add]
      congr 1
      omega
    · rw [if_neg hpar, ← pow_add, ← pow_succ']
      congr 1
      omega

/-- The fuel-driven fast exponentiation used in the numeric model agrees with
`Nat.pow`. -/
theorem natPow_eq_pow (b k : Nat) : natPow b k = b ^ k :=
  powAux_eq_pow b k k (Nat.le_refl k)

/-- Witness for C6 at the token `"2"`: not a case variant of `"false"`, parses
as the number two, and coerces to `true`. -/
theorem C6_boolean_coercion_witness :
    lowercase "2" ≠ "false" ∧ jsToNumber "2" = .finite ⟨2, 1⟩ ∧
      castArgument "2" .boolean = .bool true :=
  ⟨by decide, by decide, by
    simpa using C6_boolean_coercion.2.2.1 "2" ⟨2, 1⟩ (by decide) (by decide)⟩

/-- C10: a bare `-` token (empty flag cluster) is consumed with no observable
effect: no error, the binder state (option values, positional bindings,
overflow list, pending sets) is untouched, and the loop proceeds to the next
token. -/
theorem C10_single_hyphen_noop (defs? : Option (List OptionDefinition))
    (st : BindState) (rest : List String) :
    loadLoop defs? st ("-" :: rest) = loadLoop defs? st rest := rfl

/-- C8: a resolution step probes the leaf module first and the subdirectory
default module second, the first existing candidate winning: when the leaf
exists it is chosen whatever the default's status, and the default is chosen
when only it exists. -/
theorem C8_leaf_precedence (fs : List (List String)) (acc : ParseAcc) (tok : String)
    (rest : List String) (hv : validCommandName tok = true) :
    (pathExists fs (acc.searchPath ++ [tok ++ ".js"]) = true →
      resolveLoop fs acc (tok :: rest) =
        resolveLoop fs ⟨acc.searchPath ++ [tok], acc.searchPath ++ [tok ++ ".js"],
          acc.cmdSeq ++ [tok], rest⟩ rest) ∧
    (pathExists fs (acc.searchPath ++ [tok ++ ".js"]) = false →
      pathExists fs (acc.searchPath ++ [tok, "default.js"]) = true →
      resolveLoop fs acc (tok :: rest) =
        resolveLoop fs ⟨acc.searchPath ++ [tok], acc.searchPath ++ [tok, "default.js"],
          acc.cmdSeq ++ [tok], rest⟩ rest) := by
  constructor
  · intro h
    simp [resolveLoop, hv, h]
  · intro h1 h2
    simp [resolveLoop, hv, h1, h2]

/-- Witness for C8: with both `foo.js` and `foo/default.js` present, the step
on token `foo` descends into the leaf module. -/
theorem C8_leaf_precedence_witness :
    resolveLoop [["foo.js"], ["foo", "default.js"]]
        ⟨[], ["default.js"], ["e"], ["foo"]⟩ ["foo"] =
      resolveLoop [["foo.js"], ["foo", "default.js"]]
        ⟨["foo"], ["foo.js"], ["e", "foo"], []⟩ [] :=
  (C8_leaf_precedence [["foo.js"], ["foo", "default.js"]]
    ⟨[], ["default.js"], ["e"], ["foo"]⟩ "foo" [] (by decide)).1 (by decide)

/-- C1 counterexample: with a directory `foo` that exists but offers neither
`foo.js` nor `foo/default.js`, while `foo/bar.js` exists, the claim predicts
resolution stops at `foo` and both tokens become argument tokens of the root
default module; the code instead descends through `foo` and resolves `bar`,
leaving no argument tokens. -/
theorem C1_counterexample :
    parse [["foo"], ["foo", "bar.js"]] "e" ["node", "prog", "foo", "bar"] =
      ⟨["foo", "bar"], ["foo", "bar.js"], ["e", "bar"], []⟩ ∧
    (parse [["foo"], ["foo", "bar.js"]] "e" ["node", "prog", "foo", "bar"]).args ≠
      ["foo", "bar"] := by decide

/-- C1 amended: resolution halts at the first token that fails the
command-name grammar, and at the first token for which neither candidate
module nor the subdirectory exists; when neither candidate module exists but
the subdirectory does, resolution does not stop: it continues with the next
token inside the subdirectory, recording no command and leaving the argument
start untouched, so that later tokens may still resolve. -/
theorem C1_resolver_halting (fs : List (List String)) (acc : ParseAcc) (tok : String)
    (rest : List String) :
    (validCommandName tok = false → resolveLoop fs acc (tok :: rest) = acc) ∧
    (validCommandName tok = true →
      pathExists fs (acc.searchPath ++ [tok ++ ".js"]) = false →
      pathExists fs (acc.searchPath ++ [tok, "default.js"]) = false →
      pathExists fs (acc.searchPath ++ [tok]) = false →
      resolveLoop fs acc (tok :: rest) = acc) ∧
    (validCommandName tok = true →
      pathExists fs (acc.searchPath ++ [tok ++ ".js"]) = false →
      pathExists fs (acc.searchPath ++ [tok, "default.js"]) = false →
      pathExists fs (acc.searchPath ++ [tok]) = true →
      resolveLoop fs acc (tok :: rest) =
        resolveLoop fs { acc with searchPath := acc.searchPath ++ [tok] } rest) := by
  refine ⟨?_, ?_, ?_⟩
  · intro hv
    simp [resolveLoop, hv]
  · intro hv h1 h2 h3
    simp [resolveLoop, hv, h1, h2, h3]
  · intro hv h1 h2 h3
    simp [resolveLoop, hv, h1, h2, h3]

/-- Witness for the amended C1 at the counterexample filesystem: the step on
`foo` (no candidate module, subdirectory present) continues into `foo`. -/
theorem C1_resolver_halting_witness :
    resolveLoop [["foo"], ["foo", "bar.js"]] ⟨[], ["default.js"], ["e"], ["foo", "bar"]⟩
        ["foo", "bar"] =
      resolveLoop [["foo"], ["foo", "bar.js"]] ⟨["foo"], ["default.js"], ["e"], ["foo", "bar"]⟩
        ["bar"] :=
  (C1_resolver_halting [["foo"], ["foo", "bar.js"]]
    ⟨[], ["default.js"], ["e"], ["foo", "bar"]⟩ "foo" ["bar"]).2.2
    (by decide) (by decide) (by decide) (by decide)

/-- C3: handling of a long-option name: an unknown name is a fatal error; a
toggle is set to `true` with no token consumed; a value option consumes
exactly the next token, failing with `MissingOptionValue` when none remains
and with `OptionValueLooksLikeOption` when the next token starts with `-`,
and otherwise storing the value coerced to the declared type. -/
theorem C3_long_option (defs : List OptionDefinition) (st : BindState) (name : String)
    (rest : List String) :
    (optionDefinitionMap (some defs) name = none →
      consumeToggleOrOption (some defs) st name rest = .error (.unknownOptionName name)) ∧
    (∀ d, optionDefinitionMap (some defs) name = some d → d.toggle = true →
      consumeToggleOrOption (some defs) st name rest =
        .ok (setOpt (if d.required then dropRequired st name else st) name (.bool true),
          false)) ∧
    (∀ d, optionDefinitionMap (some defs) name = some d → d.toggle = false → rest = [] →
      consumeToggleOrOption (some defs) st name rest = .error (.missingOptionValue name)) ∧
    (∀ d v t, optionDefinitionMap (some defs) name = some d → d.toggle = false →
      rest = v :: t → v.data.head? = some '-' →
      consumeToggleOrOption (some defs) st name rest =
        .error (.optionValueLooksLikeOption name v)) ∧
    (∀ d v t, optionDefinitionMap (some defs) name = some d → d.toggle = false →
      rest = v :: t → v.data.head? ≠ some '-' →
      consumeToggleOrOption (some defs) st name rest =
        .ok (setOpt (if d.required then dropRequired st name else st) name
          (castArgument v d.type), true)) := by
  refine ⟨?_, ?_, ?_, ?_, ?_⟩
  · intro h
    simp [consumeToggleOrOption, h]
  · intro d hd ht
    simp [consumeToggleOrOption, hd, ht]
  · intro d hd ht hr
    simp [consumeToggleOrOption, consumeOption, Except.map, hd, ht, hr]
  · intro d v t hd ht hr hv
    simp [consumeToggleOrOption, consumeOption, Except.map, hd, ht, hr, hv]
  · intro d v t hd ht hr hv
    simp [consumeToggleOrOption, consumeOption, Except.map, hd, ht, hr, hv]

/-- Witness for C3: a toggle long option becomes `true` and consumes no value
token. -/
theorem C3_long_option_witness :
    consumeToggleOrOption (some [⟨"verbose", none, false, true, .undefined, .untyped⟩])
        ⟨[], [], [("verbose", .bool false)], [], []⟩ "verbose" [] =
      .ok (⟨[], [], [("verbose", .bool true)], [], []⟩, false) := by
  rw [(C3_long_option [⟨"verbose", none, false, true, .undefined, .untyped⟩]
    ⟨[], [], [("verbose", .bool false)], [], []⟩ "verbose" []).2.1
    ⟨"verbose", none, false, true, .undefined, .untyped⟩ (by decide) (by decide)]
  rfl

/-- C7: when the token queue is exhausted without a help short-circuit and
fewer positional arguments were bound than the command's required-parameter
count, the parse fails with the count mismatch and `execute` is never
invoked. -/
theorem C7_insufficient_positionals (cmd : CommandDefinition) (cmdSeq args : List String)
    (cwd : String) (st : BindState)
    (h1 : loadLoop cmd.optionDefinitions (initState cmd) args = .done st)
    (h2 : st.commandArgs.length < cmd.requiredParamsNumber) :
    load cmd cmdSeq args cwd =
      .error (.insufficientPositionalArguments cmd.requiredParamsNumber
        st.commandArgs.length) ∧
    ∀ call, load cmd cmdSeq args cwd ≠ .executed call := by
  have he : load cmd cmdSeq args cwd =
      .error (.insufficientPositionalArguments cmd.requiredParamsNumber
        st.commandArgs.length) := by
    unfold load
    rw [h1]
    simp [h2]
  exact ⟨he, fun call hc => by rw [he] at hc; cases hc⟩

/-- Witness for C7 at the spec's end-to-end example: a command with one
required parameter and a toggle `force`/`-f`, on the tail `["-f"]`, fails
expecting one positional and getting zero. -/
theorem C7_insufficient_positionals_witness :
    load ⟨some [⟨"force", some 'f', false, true, .undefined, .boolean⟩],
        [⟨"name", .string, .undefined⟩], 1⟩ ["e", "create"] ["-f"] "/" =
      .error (.insufficientPositionalArguments 1 0) := by
  have h := (C7_insufficient_positionals
    ⟨some [⟨"force", some 'f', false, true, .undefined, .boolean⟩],
      [⟨"name", .string, .undefined⟩], 1⟩ ["e", "create"] ["-f"] "/"
    ⟨[], [], [("force", .bool true)], [], [⟨"name", .string, .undefined⟩]⟩
    (by decide) (by decide)).1
  exact h.trans (by decide)

/-- C9: at dispatch each unfilled parameter slot receives its declared
default, appended in declaration order after the bound values, and `execute`
receives the bound values, then the options record, then the context (working
directory, overflow list, command path); the options record is omitted
exactly when the command declares no options. -/
theorem C9_dispatch_shape (cmd : CommandDefinition) (cmdSeq args : List String)
    (cwd : String) (st : BindState)
    (h1 : loadLoop cmd.optionDefinitions (initState cmd) args = .done st)
    (h2 : cmd.requiredParamsNumber ≤ st.commandArgs.length)
    (h3 : st.requiredPending = []) :
    load cmd cmdSeq args cwd =
      .executed
        { commandArgs := st.commandArgs ++ st.pendingParams.map (·.default)
          options :=
            match cmd.optionDefinitions with
            | none => none
            | some _ => some st.commandOptions
          context := ⟨cwd, st.commandExtraArgs, cmdSeq⟩ } ∧
    (∀ call, load cmd cmdSeq args cwd = .executed call →
      (call.options = none ↔ cmd.optionDefinitions = none)) := by
  have he : load cmd cmdSeq args cwd =
      .executed
        { commandArgs := st.commandArgs ++ st.pendingParams.map (·.default)
          options :=
            match cmd.optionDefinitions with
            | none => none
            | some _ => some st.commandOptions
          context := ⟨cwd, st.commandExtraArgs, cmdSeq⟩ } := by
    unfold load
    rw [h1]
    simp [Nat.not_lt.mpr h2, h3]
  refine ⟨he, fun call hc => ?_⟩
  rw [he] at hc
  cases hc
  cases hd : cmd.optionDefinitions <;> simp [hd]

/-- Witness for C9: a command with no options and one defaulted parameter, on
an empty tail, dispatches with the default appended and the options record
omitted. -/
theorem C9_dispatch_shape_witness :
    load ⟨none, [⟨"level", .string, .str "info"⟩], 0⟩ ["e"] [] "/work" =
      .executed ⟨[.str "info"], none, ⟨"/work", [], ["e"]⟩⟩ := by
  have h := (C9_dispatch_shape ⟨none, [⟨"level", .string, .str "info"⟩], 0⟩ ["e"] [] "/work"
    ⟨[], [], [], [], [⟨"level", .string, .str "info"⟩]⟩
    (by decide) (by decide) (by decide)).1
  exact h.trans (by decide)

/-- Reading back the key just written to the options record. -/
theorem assocGet_assocSet_self (l : List (String × JSValue)) (k : String) (v : JSValue) :
    assocGet (assocSet l k v) k = some v := by
  induction l with
  | nil => simp [assocSet, assocGet]
  | cons e rest ih =>
    obtain ⟨k', v'⟩ := e
    by_cases h : k' = k
    · simp [assocSet, assocGet, h]
    · simp [assocSet, assocGet, h, ih]

/-- Writing one key leaves the others untouched. -/
theorem assocGet_assocSet_other (l : List (String × JSValue)) (k k' : String) (v : JSValue)
    (h : k ≠ k') : assocGet (assocSet l k v) k' = assocGet l k' := by
  induction l with
  | nil => simp [assocSet, assocGet, h]
  | cons e rest ih =>
    obtain ⟨k'', v''⟩ := e
    by_cases h2 : k'' = k
    · subst h2
      simp [assocSet, assocGet, h]
    · simp [assocSet, assocGet, h2, ih]

/-- The options record after the required-bookkeeping step and a write is the
original record with the write applied (the pending-required set is
disjoint state). -/
theorem setOpt_reqdrop_commandOptions (b : Bool) (st : BindState) (n : String)
    (v : JSValue) :
    (setOpt (if b then dropRequired st n else st) n v).commandOptions =
      assocSet st.commandOptions n v := by
  cases b <;> rfl

/-- A cluster of known toggle flags sets each referenced option to `true`,
preserves options already `true`, and consumes no value token. -/
theorem consumeFlags_allToggle (defs? : Option (List OptionDefinition))
    (rest : List String) :
    ∀ (cs : List Char) (st : BindState),
      (∀ c ∈ cs, ∃ name d, flagToName defs? c = some name ∧
        optionDefinitionMap defs? name = some d ∧ d.toggle = true) →
      ∃ st', consumeFlags defs? st cs rest = .ok (st', false) ∧
        (∀ n, assocGet st.commandOptions n = some (.bool true) →
          assocGet st'.commandOptions n = some (.bool true)) ∧
        (∀ c ∈ cs, ∀ name, flagToName defs? c = some name →
          assocGet st'.commandOptions name = some (.bool true))
  | [], st, _ => ⟨st, rfl, fun _ h => h, by simp⟩
  | c :: cs, st, h => by
    obtain ⟨name, d, hf, hm, ht⟩ := h c (List.mem_cons_self c cs)
    have hstep : consumeFlags defs? st (c :: cs) rest =
        consumeFlags defs? (setOpt (if d.required then dropRequired st name else st)
          name (.bool true)) cs rest := by
      simp [consumeFlags, hf, hm, ht]
    obtain ⟨st', hrun, hpres, href⟩ :=
      consumeFlags_allToggle defs? rest cs
        (setOpt (if d.required then dropRequired st name else st) name (.bool true))
        (fun c' hc' => h c' (List.mem_cons_of_mem c hc'))
    refine ⟨st', hstep.trans hrun, ?_, ?_⟩
    · intro n hn
      apply hpres
      rw [setOpt_reqdrop_commandOptions]
      by_cases hkn : name = n
      · subst hkn
        rw [assocGet_assocSet_self]
      · rw [assocGet_assocSet_other _ _ _ _ hkn]
        exact hn
    · intro c' hc' name' hf'
      rcases List.mem_cons.mp hc' with rfl | hmem
      · rw [hf] at hf'
        injection hf' with hh
        subst hh
        apply hpres
        rw [setOpt_reqdrop_commandOptions, assocGet_assocSet_self]
      · exact href c' hmem name' hf'

/-- A cluster of toggles ended by a known value option consumes exactly the
next token (legal, not starting with `-`) and stores it coerced. -/
theorem consumeFlags_lastValue (defs? : Option (List OptionDefinition))
    (v : String) (t : List String) (hv : ¬v.data.head? = some '-') :
    ∀ (pre : List Char) (st : BindState) (c : Char) (name : String) (d : OptionDefinition),
      (∀ c' ∈ pre, ∃ name' d', flagToName defs? c' = some name' ∧
        optionDefinitionMap defs? name' = some d' ∧ d'.toggle = true) →
      flagToName defs? c = some name → optionDefinitionMap defs? name = some d →
      d.toggle = false →
      ∃ st', consumeFlags defs? st (pre ++ [c]) (v :: t) = .ok (st', true) ∧
        assocGet st'.commandOptions name = some (castArgument v d.type)
  | [], st, c, name, d, _, hf, hm, ht => by
    refine ⟨setOpt (if d.required then dropRequired st name else st) name
      (castArgument v d.type), ?_, ?_⟩
    · simp [consumeFlags, hf, hm, ht, consumeOption, hv, Except.map]
    · rw [setOpt_reqdrop_commandOptions, assocGet_assocSet_self]
  | c' :: pre, st, c, name, d, hpre, hf, hm, ht => by
    obtain ⟨name', d', hf', hm', ht'⟩ := hpre c' (List.mem_cons_self c' pre)
    have hstep : consumeFlags defs? st ((c' :: pre) ++ [c]) (v :: t) =
        consumeFlags defs? (setOpt (if d'.required then dropRequired st name' else st)
          name' (.bool true)) (pre ++ [c]) (v :: t) := by
      simp [consumeFlags, hf', hm', ht']
    obtain ⟨st', hrun, hget⟩ := consumeFlags_lastValue defs? v t hv pre
      (setOpt (if d'.required then dropRequired st name' else st) name' (.bool true))
      c name d (fun c'' hc'' => hpre c'' (List.mem_cons_of_mem c' hc'')) hf hm ht
    exact ⟨st', hstep.trans hrun, hget⟩

/-- A known value option anywhere except the last cluster position is the
`NonTerminalFlagTakesValue` fatal error. -/
theorem consumeFlags_nonTerminal (defs? : Option (List OptionDefinition))
    (rest : List String) :
    ∀ (cs : List Char) (st : BindState),
      (∀ c ∈ cs, ∃ name d, flagToName defs? c = some name ∧
        optionDefinitionMap defs? name = some d) →
      (∃ c ∈ cs.dropLast, ∃ name d, flagToName defs? c = some name ∧
        optionDefinitionMap defs? name = some d ∧ d.toggle = false) →
      consumeFlags defs? st cs rest = .error .nonTerminalFlagTakesValue
  | [], _, _, hex => by simp at hex
  | c :: cs, st, hall, hex => by
    obtain ⟨name, d, hf, hm⟩ := hall c (List.mem_cons_self c cs)
    cases cs with
    | nil => simp at hex
    | cons c2 cs2 =>
      by_cases ht : d.toggle = true
      · have hstep : consumeFlags defs? st (c :: c2 :: cs2) rest =
            consumeFlags defs? (setOpt (if d.required then dropRequired st name else st)
              name (.bool true)) (c2 :: cs2) rest := by
          simp [consumeFlags, hf, hm, ht]
        rw [hstep]
        apply consumeFlags_nonTerminal defs? rest (c2 :: cs2) _
          (fun c' hc' => hall c' (List.mem_cons_of_mem c hc'))
        obtain ⟨cw, hcw, namew, dw, hfw, hmw, htw⟩ := hex
        rw [List.dropLast_cons_of_ne_nil (List.cons_ne_nil c2 cs2)] at hcw
        rcases List.mem_cons.mp hcw with rfl | hmem
        · rw [hf] at hfw
          injection hfw with hh
          subst hh
          rw [hm] at hmw
          injection hmw with hh2
          subst hh2
          exact absurd ht (by simp [htw])
        · exact ⟨cw, hmem, namew, dw, hfw, hmw, htw⟩
      · simp [consumeFlags, hf, hm, ht]

/-- A cluster character resolving through no flag mapping is fatal: the run
of the cluster ends in some thrown error. -/
theorem consumeFlags_unknown (defs? : Option (List OptionDefinition))
    (rest : List String) :
    ∀ (cs : List Char) (st : BindState),
      (∃ c ∈ cs, flagToName defs? c = none) →
      ∃ e, consumeFlags defs? st cs rest = .error e
  | [], _, hex => by simp at hex
  | c :: cs, st, hex => by
    cases hf : flagToName defs? c with
    | none => exact ⟨.unknownOptionFlag c, by simp [consumeFlags, hf]⟩
    | some name =>
      have hex' : ∃ c' ∈ cs, flagToName defs? c' = none := by
        obtain ⟨c', hc', hn⟩ := hex
        rcases List.mem_cons.mp hc' with rfl | hmem
        · rw [hf] at hn
          cases hn
        · exact ⟨c', hmem, hn⟩
      cases hm : optionDefinitionMap defs? name with
      | none => exact ⟨.typeError, by simp [consumeFlags, hf, hm]⟩
      | some d =>
        by_cases ht : d.toggle = true
        · obtain ⟨e, he⟩ := consumeFlags_unknown defs? rest cs
            (setOpt (if d.required then dropRequired st name else st) name (.bool true)) hex'
          refine ⟨e, ?_⟩
          have hstep : consumeFlags defs? st (c :: cs) rest =
              consumeFlags defs? (setOpt (if d.required then dropRequired st name else st)
                name (.bool true)) cs rest := by
            simp [consumeFlags, hf, hm, ht]
          exact hstep.trans he
        · have hcs : cs.isEmpty = false := by
            obtain ⟨c', hc', _⟩ := hex'
            cases cs with
            | nil => cases hc'
            | cons _ _ => rfl
          exact ⟨.nonTerminalFlagTakesValue, by simp [consumeFlags, hf, hm, ht, hcs]⟩

/-- C4: flag-cluster law: an all-toggle cluster sets every referenced option
to `true` and consumes no value token; a cluster of toggles ended by a value
option consumes exactly the following token as that option's value; a known
value option in a non-last position is the `NonTerminalFlagTakesValue` fatal
error; and a character with no flag mapping makes the cluster fatal. -/
theorem C4_flag_cluster (defs? : Option (List OptionDefinition)) (st : BindState)
    (cs : List Char) (rest : List String) :
    ((∀ c ∈ cs, ∃ name d, flagToName defs? c = some name ∧
        optionDefinitionMap defs? name = some d ∧ d.toggle = true) →
      ∃ st', consumeFlags defs? st cs rest = .ok (st', false) ∧
        ∀ c ∈ cs, ∀ name, flagToName defs? c = some name →
          assocGet st'.commandOptions name = some (.bool true)) ∧
    (∀ pre c name d v t, cs = pre ++ [c] →
      (∀ c' ∈ pre, ∃ name' d', flagToName defs? c' = some name' ∧
        optionDefinitionMap defs? name' = some d' ∧ d'.toggle = true) →
      flagToName defs? c = some name → optionDefinitionMap defs? name = some d →
      d.toggle = false → rest = v :: t → ¬v.data.head? = some '-' →
      ∃ st', consumeFlags defs? st cs rest = .ok (st', true) ∧
        assocGet st'.commandOptions name = some (castArgument v d.type)) ∧
    ((∀ c ∈ cs, ∃ name d, flagToName defs? c = some name ∧
        optionDefinitionMap defs? name = some d) →
      (∃ c ∈ cs.dropLast, ∃ name d, flagToName defs? c = some name ∧
        optionDefinitionMap defs? name = some d ∧ d.toggle = false) →
      consumeFlags defs? st cs rest = .error .nonTerminalFlagTakesValue) ∧
    ((∃ c ∈ cs, flagToName defs? c = none) →
      ∃ e, consumeFlags defs? st cs rest = .error e) := by
  refine ⟨?_, ?_, ?_, ?_⟩
  · intro h
    obtain ⟨st', hrun, _, href⟩ := consumeFlags_allToggle defs? rest cs st h
    exact ⟨st', hrun, href⟩
  · intro pre c name d v t hcs hpre hf hm ht hr hv
    subst hcs
    subst hr
    exact consumeFlags_lastValue defs? v t hv pre st c name d hpre hf hm ht
  · exact consumeFlags_nonTerminal defs? rest cs st
  · exact consumeFlags_unknown defs? rest cs st

/-- Witness for C4: the all-toggle cluster `ab` over toggles `all`/`a` and
`brief`/`b` sets both options to `true` without consuming a token. -/
theorem C4_flag_cluster_witness :
    ∃ st', consumeFlags
        (some [⟨"all", some 'a', false, true, .undefined, .untyped⟩,
          ⟨"brief", some 'b', false, true, .undefined, .untyped⟩])
        ⟨[], [], [("all", .bool false), ("brief", .bool false)], [], []⟩
        ['a', 'b'] [] = .ok (st', false) ∧
      ∀ c ∈ ['a', 'b'], ∀ name,
        flagToName (some [⟨"all", some 'a', false, true, .undefined, .untyped⟩,
          ⟨"brief", some 'b', false, true, .undefined, .untyped⟩]) c = some name →
        assocGet st'.commandOptions name = some (.bool true) :=
  (C4_flag_cluster
    (some [⟨"all", some 'a', false, true, .undefined, .untyped⟩,
      ⟨"brief", some 'b', false, true, .undefined, .untyped⟩])
    ⟨[], [], [("all", .bool false), ("brief", .bool false)], [], []⟩
    ['a', 'b'] []).1 (by
      intro c hc
      rcases List.mem_cons.mp hc with rfl | hc
      · exact ⟨"all", ⟨"all", some 'a', false, true, .undefined, .untyped⟩,
          by decide, by decide, rfl⟩
      rcases List.mem_cons.mp hc with rfl | hc
      · exact ⟨"brief", ⟨"brief", some 'b', false, true, .undefined, .untyped⟩,
          by decide, by decide, rfl⟩
      · cases hc)

/-- A long-option step that consumed no value token gives the same result on
an extended queue. -/
theorem consumeToggleOrOption_extend_noconsume (defs? : Option (List OptionDefinition))
    (st : BindState) (name : String) (rest suf : List String) (st' : BindState)
    (h : consumeToggleOrOption defs? st name rest = .ok (st', false)) :
    consumeToggleOrOption defs? st name (rest ++ suf) = .ok (st', false) := by
  cases defs? with
  | none => simp [consumeToggleOrOption] at h
  | some defs =>
    cases hm : optionDefinitionMap (some defs) name with
    | none => simp [consumeToggleOrOption, hm] at h
    | some d =>
      by_cases ht : d.toggle = true
      · simp only [consumeToggleOrOption, hm, ht, if_true] at h ⊢
        exact h
      · cases rest with
        | nil => simp [consumeToggleOrOption, hm, ht, consumeOption, Except.map] at h
        | cons v t =>
          by_cases hv : v.data.head? = some '-'
          · simp [consumeToggleOrOption, hm, ht, consumeOption, hv, Except.map] at h
          · simp [consumeToggleOrOption, hm, ht, consumeOption, hv, Except.map] at h

/-- A long-option step that consumed the value `tok` gives the same result
when the queue is extended past `tok`. -/
theorem consumeToggleOrOption_extend_consume (defs? : Option (List OptionDefinition))
    (st : BindState) (name tok : String) (rest suf : List String) (st' : BindState)
    (h : consumeToggleOrOption defs? st name (tok :: rest) = .ok (st', true)) :
    consumeToggleOrOption defs? st name (tok :: (rest ++ suf)) = .ok (st', true) := by
  cases defs? with
  | none => simp [consumeToggleOrOption] at h
  | some defs =>
    cases hm : optionDefinitionMap (some defs) name with
    | none => simp [consumeToggleOrOption, hm] at h
    | some d =>
      by_cases ht : d.toggle = true
      · simp [consumeToggleOrOption, hm, ht] at h
      · by_cases hv : tok.data.head? = some '-'
        · simp [consumeToggleOrOption, hm, ht, consumeOption, hv, Except.map] at h
        · simp only [consumeToggleOrOption, hm, ht, consumeOption, hv, Except.map,
            if_false, Bool.false_eq_true, ite_false] at h ⊢
          simp [hv] at h ⊢
          exact h

/-- A long-option step on an empty queue never reports a consumed value. -/
theorem consumeToggleOrOption_nil_noconsume (defs? : Option (List OptionDefinition))
    (st : BindState) (name : String) (st' : BindState)
    (h : consumeToggleOrOption defs? st name [] = .ok (st', true)) : False := by
  cases defs? with
  | none => simp [consumeToggleOrOption] at h
  | some defs =>
    cases hm : optionDefinitionMap (some defs) name with
    | none => simp [consumeToggleOrOption, hm] at h
    | some d =>
      by_cases ht : d.toggle = true
      · simp [consumeToggleOrOption, hm, ht] at h
      · simp [consumeToggleOrOption, hm, ht, consumeOption, Except.map] at h

/-- A flag-cluster step that consumed no value token gives the same result on
an extended queue. -/
theorem consumeFlags_extend_noconsume (defs? : Option (List OptionDefinition))
    (rest suf : List String) :
    ∀ (cs : List Char) (st st' : BindState),
      consumeFlags defs? st cs rest = .ok (st', false) →
      consumeFlags defs? st cs (rest ++ suf) = .ok (st', false)
  | [], st, st', h => by
    simp only [consumeFlags] at h ⊢
    exact h
  | c :: cs, st, st', h => by
    cases hf : flagToName defs? c with
    | none => simp [consumeFlags, hf] at h
    | some name =>
      cases hm : optionDefinitionMap defs? name with
      | none => simp [consumeFlags, hf, hm] at h
      | some d =>
        by_cases ht : d.toggle = true
        · simp only [consumeFlags, hf, hm, ht, if_true] at h ⊢
          exact consumeFlags_extend_noconsume defs? rest suf cs _ st' h
        · by_cases hcs : cs.isEmpty = true
          · cases rest with
            | nil => simp [consumeFlags, hf, hm, ht, hcs, consumeOption, Except.map] at h
            | cons v t =>
              by_cases hv : v.data.head? = some '-'
              · simp [consumeFlags, hf, hm, ht, hcs, consumeOption, hv, Except.map] at h
              · simp [consumeFlags, hf, hm, ht, hcs, consumeOption, hv, Except.map] at h
          · simp [consumeFlags, hf, hm, ht, hcs] at h

/-- A flag-cluster step that consumed the value `tok` gives the same result
when the queue is extended past `tok`. -/
theorem consumeFlags_extend_consume (defs? : Option (List OptionDefinition))
    (tok : String) (rest suf : List String) :
    ∀ (cs : List Char) (st st' : BindState),
      consumeFlags defs? st cs (tok :: rest) = .ok (st', true) →
      consumeFlags defs? st cs (tok :: (rest ++ suf)) = .ok (st', true)
  | [], st, st', h => by simp [consumeFlags] at h
  | c :: cs, st, st', h => by
    cases hf : flagToName defs? c with
    | none => simp [consumeFlags, hf] at h
    | some name =>
      cases hm : optionDefinitionMap defs? name with
      | none => simp [consumeFlags, hf, hm] at h
      | some d =>
        by_cases ht : d.toggle = true
        · simp only [consumeFlags, hf, hm, ht, if_true] at h ⊢
          exact consumeFlags_extend_consume defs? tok rest suf cs _ st' h
        · by_cases hcs : cs.isEmpty = true
          · by_cases hv : tok.data.head? = some '-'
            · simp [consumeFlags, hf, hm, ht, hcs, consumeOption, hv, Except.map] at h
            · simp only [consumeFlags, hf, hm, ht, hcs, consumeOption, hv, Except.map,
                if_true, Bool.false_eq_true, ite_false] at h ⊢
              simp [hv] at h ⊢
              exact h
          · simp [consumeFlags, hf, hm, ht, hcs] at h

/-- A flag-cluster step on an empty queue never reports a consumed value. -/
theorem consumeFlags_nil_noconsume (defs? : Option (List OptionDefinition)) :
    ∀ (cs : List Char) (st st' : BindState),
      consumeFlags defs? st cs [] = .ok (st', true) → False
  | [], st, st', h => by simp [consumeFlags] at h
  | c :: cs, st, st', h => by
    cases hf : flagToName defs? c with
    | none => simp [consumeFlags, hf] at h
    | some name =>
      cases hm : optionDefinitionMap defs? name with
      | none => simp [consumeFlags, hf, hm] at h
      | some d =>
        by_cases ht : d.toggle = true
        · simp only [consumeFlags, hf, hm, ht, if_true] at h
          exact consumeFlags_nil_noconsume defs? cs _ st' h
        · by_cases hcs : cs.isEmpty = true
          · simp [consumeFlags, hf, hm, ht, hcs, consumeOption, Except.map] at h
          · simp [consumeFlags, hf, hm, ht, hcs] at h

/-- Processing a queue that ends in state `st'` and then continuing on a
suffix is the same as processing the concatenation: a `.done` prefix run
never reaches across its end. -/
theorem loadLoop_append (defs? : Option (List OptionDefinition)) (suf : List String) :
    ∀ (st : BindState) (pre : List String) (st' : BindState),
      loadLoop defs? st pre = .done st' →
      loadLoop defs? st (pre ++ suf) = loadLoop defs? st' suf := by
  intro st pre
  induction st, pre using loadLoop.induct defs? with
  | case1 st =>
    intro st' h
    simp only [loadLoop] at h
    injection h with h
    subst h
    simp
  | case2 st arg rest hhelp =>
    intro st' h
    simp [loadLoop, hhelp] at h
  | case3 st arg rest hhelp nameChars hdata e herr =>
    intro st' h
    simp [loadLoop, hhelp, hdata, herr] at h
  | case4 st arg rest hhelp nameChars hdata st2 hok ih =>
    intro st' h
    simp only [loadLoop, hhelp, if_false, Bool.false_eq_true, ite_false, hdata, hok] at h
    simp only [List.cons_append, loadLoop, hhelp, if_false, Bool.false_eq_true, ite_false,
      hdata, consumeToggleOrOption_extend_noconsume defs? st _ rest suf st2 hok]
    exact ih st' h
  | case5 st arg hhelp nameChars hdata st2 hok =>
    intro st' h
    exact (consumeToggleOrOption_nil_noconsume defs? st _ st2 hok).elim
  | case6 st arg hhelp nameChars hdata st2 tok rest hok ih =>
    intro st' h
    simp only [loadLoop, hhelp, if_false, Bool.false_eq_true, ite_false, hdata, hok] at h
    simp only [List.cons_append, loadLoop, hhelp, if_false, Bool.false_eq_true, ite_false,
      hdata, consumeToggleOrOption_extend_consume defs? st _ tok rest suf st2 hok]
    exact ih st' h
  | case7 st arg rest hhelp flagChars hnotlong hdata e herr =>
    intro st' h
    simp [loadLoop, hhelp, hdata, herr] at h
  | case8 st arg rest hhelp flagChars hnotlong hdata st2 hok ih =>
    intro st' h
    simp only [loadLoop, hhelp, if_false, Bool.false_eq_true, ite_false, hdata, hok] at h
    simp only [List.cons_append, loadLoop, hhelp, if_false, Bool.false_eq_true, ite_false,
      hdata, consumeFlags_extend_noconsume defs? rest suf flagChars st st2 hok]
    exact ih st' h
  | case9 st arg hhelp flagChars hnotlong hdata st2 hok =>
    intro st' h
    exact (consumeFlags_nil_noconsume defs? flagChars st st2 hok).elim
  | case10 st arg hhelp flagChars hnotlong hdata st2 tok rest hok ih =>
    intro st' h
    simp only [loadLoop, hhelp, if_false, Bool.false_eq_true, ite_false, hdata, hok] at h
    simp only [List.cons_append, loadLoop, hhelp, if_false, Bool.false_eq_true, ite_false,
      hdata, consumeFlags_extend_consume defs? tok rest suf flagChars st st2 hok]
    exact ih st' h
  | case11 st arg rest hhelp hnotlong hnotflag ih =>
    intro st' h
    simp only [loadLoop, hhelp, if_false, Bool.false_eq_true, ite_false] at h
    simp only [List.cons_append, loadLoop, hhelp, if_false, Bool.false_eq_true, ite_false]
    exact ih st' h

/-- C2 counterexample: a tail containing `--help` does not guarantee help
when an earlier token is fatal: with no option named `bogus`, the tail
`["--bogus", "--help"]` throws `UnknownOptionName` before the help token is
reached, so the claim's unconditional priority fails. -/
theorem C2_counterexample :
    load ⟨some [], [], 0⟩ ["e"] ["--bogus", "--help"] "/" =
      .error (.unknownOptionName "bogus") ∧
    load ⟨some [], [], 0⟩ ["e"] ["--bogus", "--help"] "/" ≠ .help ["e"] := by
  constructor
  · rfl
  · decide

/-- C2 amended: if every token before a help token (`-h`, `-?` or `--help`)
in the tail is processed without a fatal error, then on reaching the help
token the help operation is invoked with the resolved command path, no error
is raised, and `execute` is never invoked, whatever tokens follow. -/
theorem C2_help_short_circuit (cmd : CommandDefinition) (cmdSeq : List String)
    (cwd : String) (pre suf : List String) (tok : String) (st' : BindState)
    (hh : isHelpToken tok = true)
    (hp : loadLoop cmd.optionDefinitions (initState cmd) pre = .done st') :
    load cmd cmdSeq (pre ++ tok :: suf) cwd = .help cmdSeq ∧
    ∀ call, load cmd cmdSeq (pre ++ tok :: suf) cwd ≠ .executed call := by
  have hrun : loadLoop cmd.optionDefinitions (initState cmd) (pre ++ tok :: suf) =
      .help := by
    rw [loadLoop_append cmd.optionDefinitions (tok :: suf) (initState cmd) pre st' hp]
    simp [loadLoop, hh]
  constructor
  · unfold load
    rw [hrun]
  · intro call hc
    unfold load at hc
    rw [hrun] at hc
    cases hc

/-- Witness for the amended C2: after a cleanly processed positional token,
`--help` short-circuits to help. -/
theorem C2_help_short_circuit_witness :
    load ⟨none, [], 0⟩ ["e"] (["x"] ++ "--help" :: ["y"]) "/" = .help ["e"] :=
  (C2_help_short_circuit ⟨none, [], 0⟩ ["e"] "/" ["x"] ["y"] "--help"
    ⟨[], ["x"], [], [], []⟩ (by decide) (by decide)).1

/-- Removal keeps every other key. -/
theorem mem_removeName_of_ne (l : List String) (m n : String) (hne : n ≠ m)
    (h : n ∈ l) : n ∈ removeName l m := by
  simp [removeName, List.mem_filter, h, hne]

/-- A key of the shrunk set was a key of the original. -/
theorem mem_of_mem_removeName (l : List String) (m n : String)
    (h : n ∈ removeName l m) : n ∈ l := by
  simp [removeName, List.mem_filter] at h
  exact h.1

/-- The removed key is gone. -/
theorem not_mem_removeName_self (l : List String) (n : String) :
    n ∉ removeName l n := by
  simp [removeName, List.mem_filter]

/-- Writing an option value does not touch the pending-required set. -/
theorem setOpt_requiredPending (st : BindState) (n : String) (v : JSValue) :
    (setOpt st n v).requiredPending = st.requiredPending := rfl

/-- The required-bookkeeping step either keeps the pending set or removes the
one supplied name. -/
theorem reqdrop_requiredPending (b : Bool) (st : BindState) (n : String) :
    (if b then dropRequired st n else st).requiredPending =
      if b then removeName st.requiredPending n else st.requiredPending := by
  cases b <;> rfl

/-- A positional token does not touch the pending-required set. -/
theorem consumeArgument_requiredPending (st : BindState) (arg : String) :
    (consumeArgument st arg).requiredPending = st.requiredPending := by
  cases h : st.pendingParams <;> simp [consumeArgument, h]

/-- A successful long-option step leaves the pending-required set unchanged
or with exactly the supplied name removed. -/
theorem consumeToggleOrOption_pending (defs? : Option (List OptionDefinition))
    (st : BindState) (tokName : String) (rest : List String) (st' : BindState) (b : Bool)
    (h : consumeToggleOrOption defs? st tokName rest = .ok (st', b)) :
    st'.requiredPending = st.requiredPending ∨
      st'.requiredPending = removeName st.requiredPending tokName := by
  cases defs? with
  | none => simp [consumeToggleOrOption] at h
  | some defs =>
    cases hm : optionDefinitionMap (some defs) tokName with
    | none => simp [consumeToggleOrOption, hm] at h
    | some d =>
      by_cases ht : d.toggle = true
      · simp only [consumeToggleOrOption, hm, ht, if_true, Except.ok.injEq,
          Prod.mk.injEq] at h
        rw [← h.1, setOpt_requiredPending, reqdrop_requiredPending]
        cases d.required <;> simp
      · cases rest with
        | nil => simp [consumeToggleOrOption, hm, ht, consumeOption, Except.map] at h
        | cons v t =>
          by_cases hv : v.data.head? = some '-'
          · simp [consumeToggleOrOption, hm, ht, consumeOption, hv, Except.map] at h
          · simp only [consumeToggleOrOption, hm, ht, consumeOption, hv, Except.map,
              Bool.false_eq_true, ite_false, if_false] at h
            simp [hv] at h
            rw [← h.1, setOpt_requiredPending, reqdrop_requiredPending]
            cases d.required <;> simp

/-- A successful long-option step on a required option removes its name from
the pending-required set. -/
theorem consumeToggleOrOption_drops (defs? : Option (List OptionDefinition))
    (st : BindState) (name : String) (rest : List String) (st' : BindState) (b : Bool)
    (d : OptionDefinition) (hm : optionDefinitionMap defs? name = some d)
    (hreq : d.required = true)
    (h : consumeToggleOrOption defs? st name rest = .ok (st', b)) :
    name ∉ st'.requiredPending := by
  cases defs? with
  | none => simp [consumeToggleOrOption] at h
  | some defs =>
    by_cases ht : d.toggle = true
    · simp only [consumeToggleOrOption, hm, ht, hreq, if_true, Except.ok.injEq,
        Prod.mk.injEq] at h
      rw [← h.1, setOpt_requiredPending]
      exact not_mem_removeName_self _ _
    · cases rest with
      | nil => simp [consumeToggleOrOption, hm, ht, consumeOption, Except.map] at h
      | cons v t =>
        by_cases hv : v.data.head? = some '-'
        · simp [consumeToggleOrOption, hm, ht, consumeOption, hv, Except.map] at h
        · simp only [consumeToggleOrOption, hm, ht, hreq, consumeOption, hv, Except.map,
            Bool.false_eq_true, ite_false, if_false, if_true] at h
          simp [hv] at h
          rw [← h.1, setOpt_requiredPending]
          exact not_mem_removeName_self _ _

/-- A successful flag-cluster step keeps a pending name none of whose flags
appear in the cluster. -/
theorem consumeFlags_keeps (defs? : Option (List OptionDefinition)) (rest : List String)
    (n : String) :
    ∀ (cs : List Char) (st st' : BindState) (b : Bool),
      consumeFlags defs? st cs rest = .ok (st', b) →
      (∀ c ∈ cs, ¬flagToName defs? c = some n) →
      n ∈ st.requiredPending → n ∈ st'.requiredPending
  | [], st, st', b, h, _, hmem => by
    simp only [consumeFlags, Except.ok.injEq, Prod.mk.injEq] at h
    exact h.1 ▸ hmem
  | c :: cs, st, st', b, h, hno, hmem => by
    cases hf : flagToName defs? c with
    | none => simp [consumeFlags, hf] at h
    | some name =>
      have hnn : n ≠ name := fun hh => hno c (List.mem_cons_self c cs) (hh ▸ hf)
      cases hm : optionDefinitionMap defs? name with
      | none => simp [consumeFlags, hf, hm] at h
      | some d =>
        have hmem1 : n ∈ (if d.required then dropRequired st name else st).requiredPending := by
          rw [reqdrop_requiredPending]
          cases d.required with
          | false => simpa using hmem
          | true => simpa using mem_removeName_of_ne _ _ _ hnn hmem
        by_cases ht : d.toggle = true
        · simp only [consumeFlags, hf, hm, ht, if_true] at h
          exact consumeFlags_keeps defs? rest n cs _ st' b h
            (fun c' hc' => hno c' (List.mem_cons_of_mem c hc')) hmem1
        · by_cases hcs : cs.isEmpty = true
          · cases rest with
            | nil => simp [consumeFlags, hf, hm, ht, hcs, consumeOption, Except.map] at h
            | cons v t =>
              by_cases hv : v.data.head? = some '-'
              · simp [consumeFlags, hf, hm, ht, hcs, consumeOption, hv, Except.map] at h
              · simp only [consumeFlags, hf, hm, ht, hcs, consumeOption, hv, Except.map,
                  Bool.false_eq_true, ite_false, if_false, if_true] at h
                simp [hv] at h
                rw [← h.1, setOpt_requiredPending]
                exact hmem1
          · simp [consumeFlags, hf, hm, ht, hcs] at h

/-- A successful flag-cluster step never adds to the pending-required set. -/
theorem consumeFlags_subset (defs? : Option (List OptionDefinition)) (rest : List String)
    (n : String) :
    ∀ (cs : List Char) (st st' : BindState) (b : Bool),
      consumeFlags defs? st cs rest = .ok (st', b) →
      n ∉ st.requiredPending → n ∉ st'.requiredPending
  | [], st, st', b, h, hmem => by
    simp only [consumeFlags, Except.ok.injEq, Prod.mk.injEq] at h
    exact h.1 ▸ hmem
  | c :: cs, st, st', b, h, hmem => by
    cases hf : flagToName defs? c with
    | none => simp [consumeFlags, hf] at h
    | some name =>
      cases hm : optionDefinitionMap defs? name with
      | none => simp [consumeFlags, hf, hm] at h
      | some d =>
        have hmem1 : n ∉ (if d.required then dropRequired st name else st).requiredPending := by
          rw [reqdrop_requiredPending]
          cases d.required with
          | false => simpa using hmem
          | true =>
            simp only [if_true]
            exact fun hc => hmem (mem_of_mem_removeName _ _ _ hc)
        by_cases ht : d.toggle = true
        · simp only [consumeFlags, hf, hm, ht, if_true] at h
          exact consumeFlags_subset defs? rest n cs _ st' b h hmem1
        · by_cases hcs : cs.isEmpty = true
          · cases rest with
            | nil => simp [consumeFlags, hf, hm, ht, hcs, consumeOption, Except.map] at h
            | cons v t =>
              by_cases hv : v.data.head? = some '-'
              · simp [consumeFlags, hf, hm, ht, hcs, consumeOption, hv, Except.map] at h
              · simp only [consumeFlags, hf, hm, ht, hcs, consumeOption, hv, Except.map,
                  Bool.false_eq_true, ite_false, if_false, if_true] at h
                simp [hv] at h
                rw [← h.1, setOpt_requiredPending]
                exact hmem1
          · simp [consumeFlags, hf, hm, ht, hcs] at h

/-- A flag-cluster step whose first character resolves to a required option
removes that option's name from the pending-required set. -/
theorem consumeFlags_drops (defs? : Option (List OptionDefinition)) (rest : List String)
    (name : String) (c : Char) (cs : List Char) (st st' : BindState) (b : Bool)
    (d : OptionDefinition) (hf : flagToName defs? c = some name)
    (hm : optionDefinitionMap defs? name = some d) (hreq : d.required = true)
    (h : consumeFlags defs? st (c :: cs) rest = .ok (st', b)) :
    name ∉ st'.requiredPending := by
  have hdrop : name ∉ (if d.required then dropRequired st name else st).requiredPending := by
    rw [reqdrop_requiredPending, hreq]
    simp only [if_true]
    exact not_mem_removeName_self _ _
  by_cases ht : d.toggle = true
  · simp only [consumeFlags, hf, hm, ht, if_true] at h
    exact consumeFlags_subset defs? rest name cs _ st' b h hdrop
  · by_cases hcs : cs.isEmpty = true
    · cases rest with
      | nil => simp [consumeFlags, hf, hm, ht, hcs, consumeOption, Except.map] at h
      | cons v t =>
        by_cases hv : v.data.head? = some '-'
        · simp [consumeFlags, hf, hm, ht, hcs, consumeOption, hv, Except.map] at h
        · simp only [consumeFlags, hf, hm, ht, hcs, consumeOption, hv, Except.map,
            Bool.false_eq_true, ite_false, if_false, if_true] at h
          simp [hv] at h
          rw [← h.1, setOpt_requiredPending]
          exact hdrop
    · simp [consumeFlags, hf, hm, ht, hcs] at h

/-- A long-option token of a non-mentioning token carries a different name. -/
theorem mentionsOption_long_ne (defs? : Option (List OptionDefinition)) (name : String)
    (arg : String) (nameChars : List Char)
    (hdata : arg.data = '-' :: '-' :: nameChars)
    (h : mentionsOption defs? name arg = false) : ¬String.mk nameChars = name := by
  unfold mentionsOption at h
  rw [hdata] at h
  simpa using h

/-- No character of a non-mentioning flag cluster resolves to the name. -/
theorem mentionsOption_flags_none (defs? : Option (List OptionDefinition)) (name : String)
    (arg : String) (flagChars : List Char)
    (hdata : arg.data = '-' :: flagChars)
    (hnotlong : ∀ nc, flagChars = '-' :: nc → False)
    (h : mentionsOption defs? name arg = false) :
    ∀ c ∈ flagChars, ¬flagToName defs? c = some name := by
  unfold mentionsOption at h
  rw [hdata] at h
  split at h
  next nc heq =>
    injection heq with h1 h2
    exact ((hnotlong nc h2).elim)
  next fc heq =>
    injection heq with h1 h2
    subst h2
    simpa using h
  next h1 h2 => exact (h2 flagChars rfl).elim

/-- A `.done` run of the consumption loop keeps every pending required name
that no processed token mentions. -/
theorem loadLoop_pending_kept (defs? : Option (List OptionDefinition)) (name : String) :
    ∀ (st : BindState) (args : List String) (st' : BindState),
      loadLoop defs? st args = .done st' →
      (∀ tok ∈ args, mentionsOption defs? name tok = false) →
      name ∈ st.requiredPending → name ∈ st'.requiredPending := by
  intro st args
  induction st, args using loadLoop.induct defs? with
  | case1 st =>
    intro st' h _ hmem
    simp only [loadLoop] at h
    injection h with h
    subst h
    exact hmem
  | case2 st arg rest hhelp =>
    intro st' h _ _
    simp [loadLoop, hhelp] at h
  | case3 st arg rest hhelp nameChars hdata e herr =>
    intro st' h _ _
    simp [loadLoop, hhelp, hdata, herr] at h
  | case4 st arg rest hhelp nameChars hdata st2 hok ih =>
    intro st' h hment hmem
    simp only [loadLoop, hhelp, if_false, Bool.false_eq_true, ite_false, hdata, hok] at h
    have hne : name ≠ String.mk nameChars :=
      fun hh => mentionsOption_long_ne defs? name arg nameChars hdata
        (hment arg (List.mem_cons_self arg rest)) hh.symm
    have hmem2 : name ∈ st2.requiredPending := by
      rcases consumeToggleOrOption_pending defs? st _ rest st2 false hok with hp | hp
      · rw [hp]; exact hmem
      · rw [hp]; exact mem_removeName_of_ne _ _ _ hne hmem
    exact ih st' h (fun tok htok => hment tok (List.mem_cons_of_mem arg htok)) hmem2
  | case5 st arg hhelp nameChars hdata st2 hok =>
    intro st' h _ _
    exact (consumeToggleOrOption_nil_noconsume defs? st _ st2 hok).elim
  | case6 st arg hhelp nameChars hdata st2 tok rest hok ih =>
    intro st' h hment hmem
    simp only [loadLoop, hhelp, if_false, Bool.false_eq_true, ite_false, hdata, hok] at h
    have hne : name ≠ String.mk nameChars :=
      fun hh => mentionsOption_long_ne defs? name arg nameChars hdata
        (hment arg (List.mem_cons_self arg (tok :: rest))) hh.symm
    have hmem2 : name ∈ st2.requiredPending := by
      rcases consumeToggleOrOption_pending defs? st _ (tok :: rest) st2 true hok with hp | hp
      · rw [hp]; exact hmem
      · rw [hp]; exact mem_removeName_of_ne _ _ _ hne hmem
    exact ih st' h
      (fun tk htk => hment tk (List.mem_cons_of_mem arg (List.mem_cons_of_mem tok htk)))
      hmem2
  | case7 st arg rest hhelp flagChars hnotlong hdata e herr =>
    intro st' h _ _
    simp [loadLoop, hhelp, hdata, herr] at h
  | case8 st arg rest hhelp flagChars hnotlong hdata st2 hok ih =>
    intro st' h hment hmem
    simp only [loadLoop, hhelp, if_false, Bool.false_eq_true, ite_false, hdata, hok] at h
    have hflags := mentionsOption_flags_none defs? name arg flagChars hdata hnotlong
      (hment arg (List.mem_cons_self arg rest))
    have hmem2 := consumeFlags_keeps defs? rest name flagChars st st2 false hok hflags hmem
    exact ih st' h (fun tok htok => hment tok (List.mem_cons_of_mem arg htok)) hmem2
  | case9 st arg hhelp flagChars hnotlong hdata st2 hok =>
    intro st' h _ _
    exact (consumeFlags_nil_noconsume defs? flagChars st st2 hok).elim
  | case10 st arg hhelp flagChars hnotlong hdata st2 tok rest hok ih =>
    intro st' h hment hmem
    simp only [loadLoop, hhelp, if_false, Bool.false_eq_true, ite_false, hdata, hok] at h
    have hflags := mentionsOption_flags_none defs? name arg flagChars hdata hnotlong
      (hment arg (List.mem_cons_self arg (tok :: rest)))
    have hmem2 := consumeFlags_keeps defs? (tok :: rest) name flagChars st st2 true hok
      hflags hmem
    exact ih st' h
      (fun tk htk => hment tk (List.mem_cons_of_mem arg (List.mem_cons_of_mem tok htk)))
      hmem2
  | case11 st arg rest hhelp hnotlong hnotflag ih =>
    intro st' h hment hmem
    simp only [loadLoop, hhelp, if_false, Bool.false_eq_true, ite_false] at h
    refine ih st' h (fun tok htok => hment tok (List.mem_cons_of_mem arg htok)) ?_
    rw [consumeArgument_requiredPending]
    exact hmem

/-- A `.done` run of the consumption loop never adds to the pending-required
set: a name once absent stays absent, hence never reported. -/
theorem loadLoop_pending_subset (defs? : Option (List OptionDefinition)) (name : String) :
    ∀ (st : BindState) (args : List String) (st' : BindState),
      loadLoop defs? st args = .done st' →
      name ∉ st.requiredPending → name ∉ st'.requiredPending := by
  intro st args
  induction st, args using loadLoop.induct defs? with
  | case1 st =>
    intro st' h hmem
    simp only [loadLoop] at h
    injection h with h
    subst h
    exact hmem
  | case2 st arg rest hhelp =>
    intro st' h _
    simp [loadLoop, hhelp] at h
  | case3 st arg rest hhelp nameChars hdata e herr =>
    intro st' h _
    simp [loadLoop, hhelp, hdata, herr] at h
  | case4 st arg rest hhelp nameChars hdata st2 hok ih =>
    intro st' h hmem
    simp only [loadLoop, hhelp, if_false, Bool.false_eq_true, ite_false, hdata, hok] at h
    refine ih st' h ?_
    rcases consumeToggleOrOption_pending defs? st _ rest st2 false hok with hp | hp
    · rw [hp]; exact hmem
    · rw [hp]; exact fun hc => hmem (mem_of_mem_removeName _ _ _ hc)
  | case5 st arg hhelp nameChars hdata st2 hok =>
    intro st' h _
    exact (consumeToggleOrOption_nil_noconsume defs? st _ st2 hok).elim
  | case6 st arg hhelp nameChars hdata st2 tok rest hok ih =>
    intro st' h hmem
    simp only [loadLoop, hhelp, if_false, Bool.false_eq_true, ite_false, hdata, hok] at h
    refine ih st' h ?_
    rcases consumeToggleOrOption_pending defs? st _ (tok :: rest) st2 true hok with hp | hp
    · rw [hp]; exact hmem
    · rw [hp]; exact fun hc => hmem (mem_of_mem_removeName _ _ _ hc)
  | case7 st arg rest hhelp flagChars hnotlong hdata e herr =>
    intro st' h _
    simp [loadLoop, hhelp, hdata, herr] at h
  | case8 st arg rest hhelp flagChars hnotlong hdata st2 hok ih =>
    intro st' h hmem
    simp only [loadLoop, hhelp, if_false, Bool.false_eq_true, ite_false, hdata, hok] at h
    exact ih st' h (consumeFlags_subset defs? rest name flagChars st st2 false hok hmem)
  | case9 st arg hhelp flagChars hnotlong hdata st2 hok =>
    intro st' h _
    exact (consumeFlags_nil_noconsume defs? flagChars st st2 hok).elim
  | case10 st arg hhelp flagChars hnotlong hdata st2 tok rest hok ih =>
    intro st' h hmem
    simp only [loadLoop, hhelp, if_false, Bool.false_eq_true, ite_false, hdata, hok] at h
    exact ih st' h
      (consumeFlags_subset defs? (tok :: rest) name flagChars st st2 true hok hmem)
  | case11 st arg rest hhelp hnotlong hnotflag ih =>
    intro st' h hmem
    simp only [loadLoop, hhelp, if_false, Bool.false_eq_true, ite_false] at h
    refine ih st' h ?_
    rw [consumeArgument_requiredPending]
    exact hmem

/-- C5: a required option never supplied by long name or flag is still
pending when the queue is exhausted, and the parse fails with
`MissingRequiredOptions` carrying the full pending set (hence naming that
option); supplying a required option through its long name or through a flag
removes it from the pending set, and a name out of the pending set never
re-enters it, so it is not reported. -/
theorem C5_required_options (cmd : CommandDefinition) (cmdSeq args : List String)
    (cwd : String) (name : String) :
    (∀ st, loadLoop cmd.optionDefinitions (initState cmd) args = .done st →
      name ∈ (initState cmd).requiredPending →
      (∀ tok ∈ args, mentionsOption cmd.optionDefinitions name tok = false) →
      cmd.requiredParamsNumber ≤ st.commandArgs.length →
      name ∈ st.requiredPending ∧
        load cmd cmdSeq args cwd = .error (.missingRequiredOptions st.requiredPending)) ∧
    (∀ st rest st' b d, optionDefinitionMap cmd.optionDefinitions name = some d →
      d.required = true →
      consumeToggleOrOption cmd.optionDefinitions st name rest = .ok (st', b) →
      name ∉ st'.requiredPending) ∧
    (∀ st c cs rest st' b d, flagToName cmd.optionDefinitions c = some name →
      optionDefinitionMap cmd.optionDefinitions name = some d → d.required = true →
      consumeFlags cmd.optionDefinitions st (c :: cs) rest = .ok (st', b) →
      name ∉ st'.requiredPending) ∧
    (∀ st args2 st', loadLoop cmd.optionDefinitions st args2 = .done st' →
      name ∉ st.requiredPending → name ∉ st'.requiredPending) := by
  refine ⟨?_, ?_, ?_, ?_⟩
  · intro st hrun hinit hment hcount
    have hmem : name ∈ st.requiredPending :=
      loadLoop_pending_kept cmd.optionDefinitions name (initState cmd) args st hrun
        hment hinit
    refine ⟨hmem, ?_⟩
    have hsome : cmd.optionDefinitions.isSome = true := by
      cases hd : cmd.optionDefinitions with
      | none =>
        have hpend : (initState cmd).requiredPending = [] := by simp [initState, hd]
        rw [hpend] at hinit
        cases hinit
      | some _ => rfl
    have hne : st.requiredPending.isEmpty = false := by
      cases hp : st.requiredPending with
      | nil => rw [hp] at hmem; cases hmem
      | cons _ _ => rfl
    unfold load
    rw [hrun]
    simp [Nat.not_lt.mpr hcount, hsome, hne]
  · intro st rest st' b d hm hreq hok
    exact consumeToggleOrOption_drops cmd.optionDefinitions st name rest st' b d hm hreq hok
  · intro st c cs rest st' b d hf hm hreq hok
    exact consumeFlags_drops cmd.optionDefinitions rest name c cs st st' b d hf hm hreq hok
  · intro st args2 st' hrun hmem
    exact loadLoop_pending_subset cmd.optionDefinitions name st args2 st' hrun hmem

/-- Witness for C5: a required option `key` with an empty tail is reported in
`MissingRequiredOptions`. -/
theorem C5_required_options_witness :
    load ⟨some [⟨"key", none, true, false, .undefined, .string⟩], [], 0⟩ ["e"] [] "/" =
      .error (.missingRequiredOptions ["key"]) := by
  have h := ((C5_required_options
    ⟨some [⟨"key", none, true, false, .undefined, .string⟩], [], 0⟩ ["e"] [] "/" "key").1
    (initState ⟨some [⟨"key", none, true, false, .undefined, .string⟩], [], 0⟩)
    rfl (by decide) (by simp) (by decide)).2
  exact h.trans (by decide)

end Clime
